import Mathlib

/-!
# source-client-protocol: client pipeline and disconnect payload

A shallow embedding of `client.go` (the `Client` orchestrator: `SendMessage`,
`Disconnect`, `AddListener`, the body of the `receive` loop and one pass of the
`process` loop) and of `message/disconnect.go` (the disconnect payload encoder).

The bit buffer library (`github.com/galaco/bitbuf`), the `Channel`, the
`Connection` and the two protocol constants are not part of the two source
files.  The bit buffer is modelled as a stream of bits packed into bytes, the
`Channel` is a record of operations over an arbitrary state type, the
`Connection` is a record holding the outcome of a write, and the constants are
fields of a `Protocol` record.  What the bit buffer library does on a read
past the end of the data is left open: the value it may return next to its
error is the field `Protocol.shortRead`, and the flag `readPanics` of
`Client.processPassOn` covers a library that panics instead.
-/

namespace SourceNet

/-! ## Bit packing -/

/-- Which end of a value (and of a byte) comes first in the bit stream. -/
inductive BitOrder where
  | lsbFirst
  | msbFirst
  deriving DecidableEq, Repr

/-- The `n` low bits of `v`, least significant bit first. -/
def ubitsLsb : Nat → Nat → List Bool
  | 0, _ => []
  | n + 1, v => (v % 2 == 1) :: ubitsLsb n (v / 2)

/-- The number whose binary digits, least significant first, are `bs`. -/
def ofBitsLsb : List Bool → Nat
  | [] => 0
  | b :: bs => b.toNat + 2 * ofBitsLsb bs

/-- The `n`-bit unsigned field holding `v`, in stream order. -/
def ubits (o : BitOrder) (n v : Nat) : List Bool :=
  match o with
  | BitOrder.lsbFirst => ubitsLsb n v
  | BitOrder.msbFirst => (ubitsLsb n v).reverse

/-- The unsigned value of a field given in stream order. -/
def ofBits (o : BitOrder) (bs : List Bool) : Nat :=
  match o with
  | BitOrder.lsbFirst => ofBitsLsb bs
  | BitOrder.msbFirst => ofBitsLsb bs.reverse

/-- Packs `k` bytes out of a bit stream, eight bits per byte, a short last
group being filled up with zero bits. -/
def packN (o : BitOrder) : Nat → List Bool → List Nat
  | 0, _ => []
  | k + 1, bs =>
    ofBits o (bs.take 8 ++ List.replicate (8 - (bs.take 8).length) false)
      :: packN o k (bs.drop 8)

/-- The bytes holding a bit stream: `ceil (len / 8)` of them. -/
def packBits (o : BitOrder) (bs : List Bool) : List Nat :=
  packN o ((bs.length + 7) / 8) bs

/-- The bit stream held by a byte sequence. -/
def unpackBits (o : BitOrder) (data : List Nat) : List Bool :=
  data.flatMap (ubits o 8)

/-! ## The bit buffer writer and reader -/

/-- Modelled from the spec: the writer of the external bit buffer library
(`bitbuf.NewWriter` and its methods), which is not in the source files.  The
writer holds the bits written so far, in stream order; the spec describes the
disconnect payload as a bit field followed by the bytes of a text and a
terminator, packed into bytes. -/
structure Writer where
  bits : List Bool
  deriving DecidableEq, Repr

/-- Modelled from the spec: `bitbuf.NewWriter(size)`, an empty writer; `size`
is the initial allocation. -/
def NewWriter (_size : Nat) : Writer := ⟨[]⟩

/-- Modelled from the spec: `WriteUnsignedBitInt32(value, bits)` appends the
`bits`-wide unsigned field of the 32-bit `value`. -/
def Writer.WriteUnsignedBitInt32 (o : BitOrder) (w : Writer) (value bitCount : Nat) : Writer :=
  ⟨w.bits ++ ubits o bitCount (value % 2 ^ 32)⟩

/-- Modelled from the spec: `WriteByte(b)` appends the eight bits of `b`. -/
def Writer.WriteByte (o : BitOrder) (w : Writer) (b : Nat) : Writer :=
  ⟨w.bits ++ ubits o 8 b⟩

/-- Modelled from the spec: `WriteString(s)` appends the bytes of `s`, one
after the other, without a terminator. -/
def Writer.WriteString (o : BitOrder) (w : Writer) (s : List Nat) : Writer :=
  s.foldl (Writer.WriteByte o) w

/-- Modelled from the spec: `Data()` of a writer, the written bits packed into
bytes. -/
def Writer.Data (o : BitOrder) (w : Writer) : List Nat :=
  packBits o w.bits

/-- Modelled from the spec: the reader of the external bit buffer library
(`bitbuf.NewReader`), holding the bits not read yet. -/
structure Reader where
  bits : List Bool
  deriving DecidableEq, Repr

/-- Modelled from the spec: `bitbuf.NewReader(data)`. -/
def NewReader (o : BitOrder) (data : List Nat) : Reader := ⟨unpackBits o data⟩

/-- Modelled from the spec: `ReadUint32Bits(n)` on a reader with at least `n`
bits left returns the unsigned value of the next `n` bits and no error
(`some`).  With fewer than `n` bits left the read fails (`none`); what the
library hands back then, a value next to its error or a panic, is fixed
neither by the source files nor by the spec, and is a parameter of the
dispatch (`Protocol.shortRead`, `readPanics`). -/
def Reader.ReadUint32Bits (o : BitOrder) (r : Reader) (n : Nat) : Option Nat :=
  if n ≤ r.bits.length then some (ofBits o (r.bits.take n) % 2 ^ 32) else none

/-! ## Messages -/

/-- The `IMessage` capability: what `Connectionless()` and `Data()` return. -/
structure IMessage where
  Connectionless : Bool
  Data : List Nat
  deriving DecidableEq, Repr

/-- The disconnect message of `message/disconnect.go`. -/
structure MsgDisconnect where
  buf : List Nat
  deriving DecidableEq, Repr

/-- The method `MsgDisconnect.Connectionless`: a disconnect notice is bound
to the connection. -/
def MsgDisconnect.Connectionless (_msg : MsgDisconnect) : Bool := false

/-- The method `MsgDisconnect.Data`: the packet data. -/
def MsgDisconnect.Data (msg : MsgDisconnect) : List Nat := msg.buf

/-- A `MsgDisconnect` seen through the `IMessage` interface. -/
def MsgDisconnect.toIMessage (msg : MsgDisconnect) : IMessage :=
  ⟨msg.Connectionless, msg.Data⟩

/-- The function `message.Disconnect(msg)`; the text `msg` is given by its
bytes. -/
def Disconnect (o : BitOrder) (msg : List Nat) : MsgDisconnect :=
  let buf := NewWriter 1024
  let buf := buf.WriteUnsignedBitInt32 o 1 6
  let buf := buf.WriteString o msg
  let buf := buf.WriteByte o 0
  { buf := buf.Data o }

/-! ## The client -/

/-- The two protocol constants that `client.go` reads and that are declared
in another file of the package, together with two facts about the bit buffer
library: its bit order, and the value `ReadUint32Bits` returns next to its
error when the data is too short (for a library that returns then). -/
structure Protocol where
  netmsgTypeBits : Nat
  packetHeaderFlagQuery : Nat
  bitOrder : BitOrder
  shortRead : Nat
  deriving DecidableEq, Repr

/-- A listener handle (`IListener`).  Its hooks `Register` and `Receive` are
external; a call of one of them is recorded as an `Event`. -/
abbrev IListener := Nat

/-- The calls the client makes on its collaborators, in the order made. -/
inductive Event where
  /-- `client.channel.WriteHeader(msg, hasSubChannels)` was called. -/
  | writeHeader (msg : Option IMessage) (hasSubChannels : Bool)
  /-- `client.net.Send(msg)` was called; `ok` tells whether the write went
  through without an error. -/
  | send (msg : IMessage) (ok : Bool)
  /-- `client.net.proto.Close()` was called. -/
  | close
  /-- `client.disconnectCallback()` was called: the tasks are told to stop. -/
  | cancel
  /-- `target.Register(client)` was called while the registry of the client
  held `registered`. -/
  | register (target : IListener) (registered : List IListener)
  /-- `listen.Receive(msg, msgType)` was called. -/
  | receive (listen : IListener) (msg : IMessage) (msgType : Int)
  deriving DecidableEq, Repr

/-- Modelled from the spec: the `Connection` type of the package, which is not
in the source files.  The spec gives `send(bytes) -> Result<(), IOError>`;
`Send msg` is `true` when the write of `msg` succeeds and `false` when it
fails. -/
structure Connection where
  Send : IMessage → Bool

/-- Modelled from the spec: the operations of the `Channel` type of the
package that `client.go` calls; the `Channel` itself is not in the source
files.  `σ` is the channel state, `δ` what `Connection.Receive` hands over.
`WriteHeader` returns `none` for Go's `nil` (framing failed). -/
structure Channel (σ δ : Type) where
  WriteHeader : σ → Option IMessage → Bool → Option IMessage × σ
  ProcessPacket : σ → δ → σ
  WaitingOnFragments : σ → Bool × σ
  GetMessages : σ → List (Option IMessage) × σ

/-- The `Client` struct.  `net` and `disconnectCallback` are `none` (Go's
`nil`) until `Connect` sets them; a `nil` entry of the queue is `none`. -/
structure Client (σ : Type) where
  net : Option Connection
  channel : σ
  receivedQueue : List (Option IMessage)
  listeners : List IListener
  disconnectCallback : Option Unit

/-- What a call leaves behind: its result (`none` when the call panicked),
the client afterwards, and the calls made on the collaborators. -/
structure Outcome (σ α : Type) where
  ret : Option α
  client : Client σ
  trace : List Event

/-- The function `NewClient`, given the state `NewChannel()` returns. -/
def NewClient {σ : Type} (newChannel : σ) : Client σ :=
  { net := none
    channel := newChannel
    receivedQueue := []
    listeners := []
    disconnectCallback := none }

/-- The method `Client.Connect`, given what dialling the server returned
(`none` for an error).  The result tells whether the error returned is nil.
The two tasks it starts are `Client.receive` and `Client.process` below. -/
def Client.Connect {σ : Type} (client : Client σ) (dialled : Option Connection) :
    Bool × Client σ :=
  match dialled with
  | none => (false, client)
  | some conn => (true, { client with net := some conn, disconnectCallback := some () })

/-- The test `msg == nil || msg.Connectionless() == false` of `SendMessage`. -/
def needsHeader : Option IMessage → Bool
  | none => true
  | some m => m.Connectionless == false

/-- The method `Client.SendMessage`.  Calling `Send` on a `nil` connection
panics. -/
def Client.SendMessage {σ δ : Type} (ch : Channel σ δ) (client : Client σ)
    (msg : Option IMessage) (hasSubChannels : Bool) : Outcome σ Bool :=
  let framed : Option IMessage × Client σ × List Event :=
    if needsHeader msg then
      let r := ch.WriteHeader client.channel msg hasSubChannels
      (r.1, { client with channel := r.2 }, [Event.writeHeader msg hasSubChannels])
    else (msg, client, [])
  match framed.1 with
  | none => ⟨some false, framed.2.1, framed.2.2⟩
  | some m =>
    match client.net with
    | none => ⟨none, framed.2.1, framed.2.2⟩
    | some conn => ⟨some true, framed.2.1, framed.2.2 ++ [Event.send m (conn.Send m)]⟩

/-- The method `Client.Disconnect`.  The deferred `Close()` runs after the
cancellation call, also when that call panics on a `nil` callback; reading
`client.net.proto` on a `nil` connection panics before anything is deferred. -/
def Client.Disconnect {σ δ : Type} (ch : Channel σ δ) (client : Client σ)
    (msg : Option IMessage) : Outcome σ Unit :=
  let sent : Outcome σ Bool :=
    match msg with
    | none => ⟨some true, client, []⟩
    | some m => client.SendMessage ch (some m) false
  match sent.ret with
  | none => ⟨none, sent.client, sent.trace⟩
  | some _ =>
    match sent.client.net with
    | none => ⟨none, sent.client, sent.trace⟩
    | some _ =>
      match sent.client.disconnectCallback with
      | none => ⟨none, sent.client, sent.trace ++ [Event.close]⟩
      | some _ => ⟨some (), sent.client, sent.trace ++ [Event.cancel, Event.close]⟩

/-- The method `Client.AddListener`.  The hook `Register` is external: its
call is recorded together with the registry it finds, and it is taken not to
call back into the client. -/
def Client.AddListener {σ : Type} (client : Client σ) (target : IListener) : Outcome σ Unit :=
  ⟨some (), { client with listeners := client.listeners ++ [target] },
    [Event.register target client.listeners]⟩

/-- One turn of the loop of `Client.receive` when the context is not done;
`packet` is what `client.net.Receive()` returned. -/
def Client.receiveStep {σ δ : Type} (ch : Channel σ δ) (client : Client σ) (packet : δ) :
    Client σ :=
  let c1 := ch.ProcessPacket client.channel packet
  let w := ch.WaitingOnFragments c1
  let g := ch.GetMessages w.2
  { client with channel := g.2, receivedQueue := client.receivedQueue ++ g.1 }

/-- The loop of `Client.receive` over the packets that arrive before the
context is done. -/
def Client.receive {σ δ : Type} (ch : Channel σ δ) (client : Client σ) (packets : List δ) :
    Client σ :=
  packets.foldl (Client.receiveStep ch) client

/-- The message type `Client.process` hands to the listeners for `m` when
the read of the type field returns: the error of `ReadUint32Bits` is dropped
(on a short read the value is `p.shortRead`, as a `uint32`), and the `uint32`
is converted to `int`. -/
def msgTypeOf (p : Protocol) (m : IMessage) : Int :=
  let msgType := p.packetHeaderFlagQuery % 2 ^ 32
  let msgType :=
    if m.Connectionless == true then
      match Reader.ReadUint32Bits p.bitOrder (NewReader p.bitOrder m.Data) p.netmsgTypeBits with
      | some v => v
      | none => p.shortRead % 2 ^ 32
    else msgType
  Int.ofNat msgType

/-- The message type for `m`, or `none` when computing it panics: that is the
case of a connectionless message with too short data when the library panics
on a short read (`readPanics`). -/
def msgTypeOn (readPanics : Bool) (p : Protocol) (m : IMessage) : Option Int :=
  if readPanics && m.Connectionless
      && (Reader.ReadUint32Bits p.bitOrder (NewReader p.bitOrder m.Data)
            p.netmsgTypeBits).isNone then none
  else some (msgTypeOf p m)

/-- The inner loop `for i = 0; i < queueSize; i++` of `Client.process`, from
index `i` with `left = queueSize - i` turns to go.  The second component tells
whether the loop panicked (an index out of range, or a panicking read), which
ends the task. -/
def Client.dispatchFromOn {σ : Type} (readPanics : Bool) (p : Protocol) (client : Client σ) :
    Nat → Nat → List Event × Bool
  | 0, _ => ([], false)
  | left + 1, i =>
    match client.receivedQueue.get? i with
    | none => ([], true)
    | some none => Client.dispatchFromOn readPanics p client left (i + 1)
    | some (some m) =>
      match msgTypeOn readPanics p m with
      | none => ([], true)
      | some msgType =>
        let rest := Client.dispatchFromOn readPanics p client left (i + 1)
        (client.listeners.map (fun listen => Event.receive listen m msgType) ++ rest.1, rest.2)

/-- The inner loop of `Client.process` over a library whose short reads
return. -/
def Client.dispatchFrom {σ : Type} (p : Protocol) (client : Client σ) (left i : Nat) :
    List Event × Bool :=
  client.dispatchFromOn false p left i

/-- One turn of the outer loop of `Client.process` when the context is not
done and the receive task does not run in between.  After a panic the queue
is not cut. -/
def Client.processPassOn {σ : Type} (readPanics : Bool) (p : Protocol) (client : Client σ) :
    Outcome σ Unit :=
  let queueSize := client.receivedQueue.length
  if queueSize == 0 then ⟨some (), client, []⟩
  else
    let r := client.dispatchFromOn readPanics p queueSize 0
    if r.2 then ⟨none, client, r.1⟩
    else ⟨some (), { client with receivedQueue := client.receivedQueue.drop queueSize }, r.1⟩

/-- One turn of the outer loop of `Client.process` over a library whose short
reads return. -/
def Client.processPass {σ : Type} (p : Protocol) (client : Client σ) : Outcome σ Unit :=
  client.processPassOn false p

/-- The dispatch order in the words of the spec: for each entry of the queue
that is not nil, in queue order, `Receive(message, messageType)` on every
listener in registration order, all listeners being served before the next
message is taken up. -/
def dispatchOrder (p : Protocol) (listeners : List IListener) (queue : List (Option IMessage)) :
    List Event :=
  (queue.filterMap id).flatMap
    (fun m => listeners.map (fun listen => Event.receive listen m (msgTypeOf p m)))

/-- The inner loop of `Client.process` told over the entries it visits
instead of over their indices. -/
def dispatchList (readPanics : Bool) (p : Protocol) (listeners : List IListener) :
    List (Option IMessage) → List Event × Bool
  | [] => ([], false)
  | none :: queue => dispatchList readPanics p listeners queue
  | some m :: queue =>
    match msgTypeOn readPanics p m with
    | none => ([], true)
    | some msgType =>
      (listeners.map (fun listen => Event.receive listen m msgType)
          ++ (dispatchList readPanics p listeners queue).1,
        (dispatchList readPanics p listeners queue).2)

/-! ## Sample collaborators -/

/-- A connection whose writes succeed. -/
def sampleConn : Connection := ⟨fun _ => true⟩

/-- A connection whose writes fail. -/
def brokenConn : Connection := ⟨fun _ => false⟩

/-- The state of the sample channel: the outgoing sequence number and the
messages that are ready. -/
structure SampleState where
  outgoingSequence : Nat
  ready : List (Option IMessage)
  deriving DecidableEq, Repr

/-- A sample channel.  `WriteHeader` puts the sequence number in front of the
payload and fails on a payload of more than `maxFrame` bytes; `ProcessPacket`
makes the packet a ready connectionless message. -/
def sampleChannel (maxFrame : Nat) : Channel SampleState (List Nat) where
  WriteHeader s msg _ :=
    match msg with
    | none => (some ⟨false, [s.outgoingSequence % 256]⟩,
        { s with outgoingSequence := s.outgoingSequence + 1 })
    | some m =>
      if maxFrame < m.Data.length then (none, s)
      else (some ⟨false, (s.outgoingSequence % 256) :: m.Data⟩,
        { s with outgoingSequence := s.outgoingSequence + 1 })
  ProcessPacket s d := { s with ready := s.ready ++ [some ⟨true, d⟩] }
  WaitingOnFragments s := (false, s)
  GetMessages s := (s.ready, { s with ready := [] })

/-- A client after `Connect` over `conn`, with the given queue and registry. -/
def sampleClient (conn : Connection) (queue : List (Option IMessage))
    (listeners : List IListener) : Client SampleState :=
  { ((NewClient ⟨7, []⟩ : Client SampleState).Connect (some conn)).2 with
    receivedQueue := queue
    listeners := listeners }

/-- A connectionless message made of a type tag of `p.netmsgTypeBits` bits
followed by the bytes of `payload`. -/
def taggedMessage (p : Protocol) (tag : Nat) (payload : List Nat) : IMessage :=
  let buf := NewWriter 1024
  let buf := buf.WriteUnsignedBitInt32 p.bitOrder tag p.netmsgTypeBits
  let buf := buf.WriteString p.bitOrder payload
  { Connectionless := true, Data := buf.Data p.bitOrder }

/-- Sample constants: a type tag of 6 bits. -/
def sampleProtocol (o : BitOrder) : Protocol :=
  { netmsgTypeBits := 6, packetHeaderFlagQuery := 4294967295, bitOrder := o, shortRead := 0 }

/-! ## Bit packing lemmas -/

theorem ubitsLsb_length (n v : Nat) : (ubitsLsb n v).length = n := by
  induction n generalizing v with
  | zero => rfl
  | succ n ih => simp [ubitsLsb, ih]

theorem ubits_length (o : BitOrder) (n v : Nat) : (ubits o n v).length = n := by
  cases o <;> simp [ubits, ubitsLsb_length]

theorem ofBitsLsb_ubitsLsb (n v : Nat) : ofBitsLsb (ubitsLsb n v) = v % 2 ^ n := by
  induction n generalizing v with
  | zero => simp [ubitsLsb, ofBitsLsb, Nat.mod_one]
  | succ n ih =>
    simp only [ubitsLsb, ofBitsLsb, ih]
    rw [pow_succ', Nat.mod_mul]
    rcases Nat.mod_two_eq_zero_or_one v with h | h <;> simp [h]

theorem ofBits_ubits (o : BitOrder) (n v : Nat) : ofBits o (ubits o n v) = v % 2 ^ n := by
  cases o <;> simp [ofBits, ubits, ofBitsLsb_ubitsLsb]

theorem ubitsLsb_ofBitsLsb (bs : List Bool) : ubitsLsb bs.length (ofBitsLsb bs) = bs := by
  induction bs with
  | nil => rfl
  | cons b bs ih =>
    have h1 : (b.toNat + 2 * ofBitsLsb bs) / 2 = ofBitsLsb bs := by
      cases b
      · simp [Bool.toNat]
      · simp only [Bool.toNat, cond_true]; omega
    have h2 : ((b.toNat + 2 * ofBitsLsb bs) % 2 == 1) = b := by
      cases b <;> simp [Bool.toNat, Nat.add_mul_mod_self_left]
    simp only [List.length_cons, ubitsLsb, ofBitsLsb, h1, h2, ih]

theorem ubits_ofBits (o : BitOrder) (bs : List Bool) :
    ubits o bs.length (ofBits o bs) = bs := by
  cases o
  · simpa [ubits, ofBits] using ubitsLsb_ofBitsLsb bs
  · have h := ubitsLsb_ofBitsLsb bs.reverse
    simp only [List.length_reverse] at h
    simp [ubits, ofBits, h]

theorem packN_length (o : BitOrder) (k : Nat) (bs : List Bool) : (packN o k bs).length = k := by
  induction k generalizing bs with
  | zero => rfl
  | succ k ih => simp [packN, ih]

theorem unpackBits_packN (o : BitOrder) (k : Nat) (bs : List Bool) (h : bs.length ≤ 8 * k) :
    unpackBits o (packN o k bs) = bs ++ List.replicate (8 * k - bs.length) false := by
  induction k generalizing bs with
  | zero =>
    have hnil : bs = [] := List.eq_nil_of_length_eq_zero (by omega)
    subst hnil
    rfl
  | succ k ih =>
    have hlen : (bs.take 8 ++ List.replicate (8 - (bs.take 8).length) false).length = 8 := by
      simp only [List.length_append, List.length_replicate, List.length_take]
      omega
    have hhead := ubits_ofBits o (bs.take 8 ++ List.replicate (8 - (bs.take 8).length) false)
    rw [hlen] at hhead
    have htail := ih (bs.drop 8) (by simp only [List.length_drop]; omega)
    have hstep : unpackBits o (packN o (k + 1) bs)
        = (bs.take 8 ++ List.replicate (8 - (bs.take 8).length) false)
          ++ unpackBits o (packN o k (bs.drop 8)) := by
      simp only [packN, unpackBits, List.flatMap_cons, hhead]
    rw [hstep, htail]
    by_cases h8 : 8 ≤ bs.length
    · have e1 : 8 - (bs.take 8).length = 0 := by
        simp only [List.length_take]; omega
      have e2 : 8 * k - (bs.drop 8).length = 8 * (k + 1) - bs.length := by
        simp only [List.length_drop]; omega
      rw [e1, e2]
      simp only [List.replicate_zero, List.append_nil, ← List.append_assoc, List.take_append_drop]
    · have e1 : bs.take 8 = bs := List.take_of_length_le (by omega)
      have e2 : bs.drop 8 = [] := List.drop_of_length_le (by omega)
      rw [e1, e2]
      simp only [List.nil_append, List.length_nil, Nat.sub_zero, List.append_assoc,
        ← List.replicate_add]
      congr 2
      omega

theorem unpackBits_packBits (o : BitOrder) (bs : List Bool) :
    unpackBits o (packBits o bs)
      = bs ++ List.replicate (8 * ((bs.length + 7) / 8) - bs.length) false :=
  unpackBits_packN o _ bs (by omega)

theorem WriteString_bits (o : BitOrder) (w : Writer) (s : List Nat) :
    (w.WriteString o s).bits = w.bits ++ s.flatMap (ubits o 8) := by
  induction s generalizing w with
  | nil => simp [Writer.WriteString]
  | cons b s ih =>
    have h := ih (w.WriteByte o b)
    simp only [Writer.WriteString, List.foldl_cons] at h ⊢
    rw [h]
    simp [Writer.WriteByte, List.append_assoc]

theorem flatMap_ubits_length (o : BitOrder) (s : List Nat) :
    (s.flatMap (ubits o 8)).length = 8 * s.length := by
  induction s with
  | nil => rfl
  | cons b s ih => simp [List.flatMap_cons, ubits_length, ih]; omega

theorem Disconnect_bits (o : BitOrder) (s : List Nat) :
    (Disconnect o s).Data
      = packBits o (ubits o 6 1 ++ s.flatMap (ubits o 8) ++ ubits o 8 0) := by
  simp [Disconnect, MsgDisconnect.Data, Writer.Data, Writer.WriteByte, WriteString_bits,
    Writer.WriteUnsignedBitInt32, NewWriter]


/-! ## The disconnect payload -/

/-- C1: for every text `s`, the payload of `message.Disconnect(s)` holds, in
stream order, the 6-bit unsigned tag 1, then the bytes of `s`, then a NUL byte,
and after that only the two zero bits that fill up the last byte; it is
`len(s) + 2` bytes long and a reader gets the tag 1 back from its first six
bits.  For `"bye"` the stream is the tag followed by `b`, `y`, `e`, `0x00`. -/
theorem Disconnect_payload (o : BitOrder) (s : List Nat) :
    unpackBits o (Disconnect o s).Data
        = ubits o 6 1 ++ s.flatMap (ubits o 8) ++ ubits o 8 0 ++ [false, false]
      ∧ (Disconnect o s).Data.length = s.length + 2
      ∧ Reader.ReadUint32Bits o (NewReader o (Disconnect o s).Data) 6 = some 1
      ∧ unpackBits o (Disconnect o [98, 121, 101]).Data
        = ubits o 6 1 ++ ubits o 8 98 ++ ubits o 8 121 ++ ubits o 8 101 ++ ubits o 8 0
          ++ [false, false]
      ∧ (Disconnect BitOrder.lsbFirst [98, 121, 101]).Data = [129, 88, 94, 25, 0]
      ∧ (Disconnect BitOrder.msbFirst [98, 121, 101]).Data = [5, 137, 229, 148, 0] := by
  have hlen : (ubits o 6 1 ++ s.flatMap (ubits o 8) ++ ubits o 8 0).length = 8 * s.length + 14 := by
    simp only [List.length_append, ubits_length, flatMap_ubits_length]; omega
  have hpad : 8 * (((ubits o 6 1 ++ s.flatMap (ubits o 8) ++ ubits o 8 0).length + 7) / 8)
      - (ubits o 6 1 ++ s.flatMap (ubits o 8) ++ ubits o 8 0).length = 2 := by
    rw [hlen]; omega
  have hstream : unpackBits o (Disconnect o s).Data
      = ubits o 6 1 ++ s.flatMap (ubits o 8) ++ ubits o 8 0 ++ [false, false] := by
    rw [Disconnect_bits, unpackBits_packBits, hpad]; rfl
  refine ⟨hstream, ?_, ?_, ?_, by decide, by decide⟩
  · rw [Disconnect_bits, packBits, packN_length, hlen]; omega
  · have h6 : (ubits o 6 1).length = 6 := ubits_length o 6 1
    have htake : (ubits o 6 1 ++ s.flatMap (ubits o 8) ++ ubits o 8 0 ++ [false, false]).take 6
        = ubits o 6 1 := by
      rw [List.append_assoc, List.append_assoc, List.take_append_eq_append_take, h6]
      simp [List.take_of_length_le, h6]
    simp only [Reader.ReadUint32Bits, NewReader, hstream, htake, ofBits_ubits]
    rw [if_pos]
    · rfl
    · simp only [List.length_append, ubits_length]; omega
  · cases o <;> decide

/-! ## Sending -/

theorem SendMessage_connectionless {σ δ : Type} (ch : Channel σ δ) (client : Client σ)
    (conn : Connection) (m : IMessage) (h : Bool) (hnet : client.net = some conn)
    (hm : m.Connectionless = true) :
    client.SendMessage ch (some m) h = ⟨some true, client, [Event.send m (conn.Send m)]⟩ := by
  simp [Client.SendMessage, needsHeader, hm, hnet]

theorem SendMessage_framed {σ δ : Type} (ch : Channel σ δ) (client : Client σ)
    (conn : Connection) (m f : IMessage) (h : Bool) (hnet : client.net = some conn)
    (hm : m.Connectionless = false)
    (hf : (ch.WriteHeader client.channel (some m) h).1 = some f) :
    client.SendMessage ch (some m) h
      = ⟨some true, { client with channel := (ch.WriteHeader client.channel (some m) h).2 },
          [Event.writeHeader (some m) h, Event.send f (conn.Send f)]⟩ := by
  simp [Client.SendMessage, needsHeader, hm, hnet, hf]

theorem SendMessage_unframed {σ δ : Type} (ch : Channel σ δ) (client : Client σ)
    (m : IMessage) (h : Bool) (hm : m.Connectionless = false)
    (hf : (ch.WriteHeader client.channel (some m) h).1 = none) :
    client.SendMessage ch (some m) h
      = ⟨some false, { client with channel := (ch.WriteHeader client.channel (some m) h).2 },
          [Event.writeHeader (some m) h]⟩ := by
  simp [Client.SendMessage, needsHeader, hm, hf]

/-- C2: on a connected client, `SendMessage(m, h)` for a message that is not
connectionless calls `WriteHeader(m, h)` and, when that returns a framed
message `f`, sends `f` and returns true; when `WriteHeader` returns nil it
returns false and no `Send` is made; for a connectionless message
`WriteHeader` is not called, `m` itself is sent, the channel is left alone and
the result is true. -/
theorem SendMessage_contract {σ δ : Type} (ch : Channel σ δ) (client : Client σ)
    (conn : Connection) (m : IMessage) (h : Bool) (hnet : client.net = some conn) :
    (m.Connectionless = false →
        ∀ f, (ch.WriteHeader client.channel (some m) h).1 = some f →
          (client.SendMessage ch (some m) h).ret = some true
          ∧ (client.SendMessage ch (some m) h).trace
              = [Event.writeHeader (some m) h, Event.send f (conn.Send f)]
          ∧ (client.SendMessage ch (some m) h).client.channel
              = (ch.WriteHeader client.channel (some m) h).2)
      ∧ (m.Connectionless = false →
          (ch.WriteHeader client.channel (some m) h).1 = none →
          (client.SendMessage ch (some m) h).ret = some false
          ∧ (client.SendMessage ch (some m) h).trace = [Event.writeHeader (some m) h]
          ∧ ∀ x ok, Event.send x ok ∉ (client.SendMessage ch (some m) h).trace)
      ∧ (m.Connectionless = true →
          (client.SendMessage ch (some m) h).ret = some true
          ∧ (client.SendMessage ch (some m) h).trace = [Event.send m (conn.Send m)]
          ∧ (∀ x b, Event.writeHeader x b ∉ (client.SendMessage ch (some m) h).trace)
          ∧ (client.SendMessage ch (some m) h).client.channel = client.channel) := by
  refine ⟨?_, ?_, ?_⟩
  · intro hm f hf
    rw [SendMessage_framed ch client conn m f h hnet hm hf]
    exact ⟨rfl, rfl, rfl⟩
  · intro hm hf
    rw [SendMessage_unframed ch client m h hm hf]
    refine ⟨rfl, rfl, ?_⟩
    intro x ok hmem
    simp at hmem
  · intro hm
    rw [SendMessage_connectionless ch client conn m h hnet hm]
    refine ⟨rfl, rfl, ?_, rfl⟩
    intro x b hmem
    simp at hmem

/-- The sending contract on the sample channel (frames of
at most 4 bytes): a 2-byte message is framed and sent, a 5-byte message is
not sent, and a connectionless message is sent as it is. -/
theorem SendMessage_contract_witness :
    (sampleClient sampleConn [] []).net = some sampleConn
      ∧ ((sampleClient sampleConn [] []).SendMessage (sampleChannel 4) (some ⟨false, [1, 2]⟩)
            false).trace
          = [Event.writeHeader (some ⟨false, [1, 2]⟩) false, Event.send ⟨false, [7, 1, 2]⟩ true]
      ∧ ((sampleClient sampleConn [] []).SendMessage (sampleChannel 4)
            (some ⟨false, [1, 2, 3, 4, 5]⟩) false).ret = some false
      ∧ ((sampleClient sampleConn [] []).SendMessage (sampleChannel 4) (some ⟨true, [9]⟩)
            false).trace = [Event.send ⟨true, [9]⟩ true] :=
  ⟨rfl,
    ((SendMessage_contract (sampleChannel 4) (sampleClient sampleConn [] []) sampleConn
      ⟨false, [1, 2]⟩ false rfl).1 rfl ⟨false, [7, 1, 2]⟩ rfl).2.1,
    ((SendMessage_contract (sampleChannel 4) (sampleClient sampleConn [] []) sampleConn
      ⟨false, [1, 2, 3, 4, 5]⟩ false rfl).2.1 rfl rfl).1,
    ((SendMessage_contract (sampleChannel 4) (sampleClient sampleConn [] []) sampleConn
      ⟨true, [9]⟩ false rfl).2.2 rfl).2.1⟩

/-- C8, as stated, fails: over a connection whose writes fail, `SendMessage`
of a connectionless message (and of a message that is framed) makes the
failing `Send` and returns true. -/
theorem SendMessage_failure_surfaced_counterexample :
    brokenConn.Send ⟨true, [9]⟩ = false
      ∧ ((sampleClient brokenConn [] []).SendMessage (sampleChannel 4) (some ⟨true, [9]⟩)
            false).trace = [Event.send ⟨true, [9]⟩ false]
      ∧ ((sampleClient brokenConn [] []).SendMessage (sampleChannel 4) (some ⟨true, [9]⟩)
            false).ret = some true
      ∧ ((sampleClient brokenConn [] []).SendMessage (sampleChannel 4) (some ⟨false, [1, 2]⟩)
            false).trace
          = [Event.writeHeader (some ⟨false, [1, 2]⟩) false, Event.send ⟨false, [7, 1, 2]⟩ false]
      ∧ ((sampleClient brokenConn [] []).SendMessage (sampleChannel 4) (some ⟨false, [1, 2]⟩)
            false).ret = some true := by
  refine ⟨rfl, ?_, ?_, ?_, ?_⟩ <;> decide

/-- C8, amended: on a connected client, for every message that is framed
successfully or is connectionless, `SendMessage` makes the `Send` and returns
true whatever the outcome of the `Send`: the outcome is dropped, also when the
write fails. -/
theorem SendMessage_ignores_send_result {σ δ : Type} (ch : Channel σ δ) (client : Client σ)
    (conn : Connection) (m f : IMessage) (h : Bool) (hnet : client.net = some conn)
    (hf : (m.Connectionless = true ∧ f = m)
      ∨ (m.Connectionless = false ∧ (ch.WriteHeader client.channel (some m) h).1 = some f)) :
    (client.SendMessage ch (some m) h).ret = some true
      ∧ (client.SendMessage ch (some m) h).trace.getLast? = some (Event.send f (conn.Send f)) := by
  rcases hf with ⟨hm, rfl⟩ | ⟨hm, hf⟩
  · rw [SendMessage_connectionless ch client conn _ h hnet hm]
    exact ⟨rfl, rfl⟩
  · rw [SendMessage_framed ch client conn m f h hnet hm hf]
    exact ⟨rfl, rfl⟩

/-- Over a connection whose writes fail, a framed message is handed to `Send`
and `SendMessage` returns true. -/
theorem SendMessage_ignores_send_result_witness :
    (sampleClient brokenConn [] []).net = some brokenConn
      ∧ brokenConn.Send ⟨false, [7, 1, 2]⟩ = false
      ∧ ((sampleClient brokenConn [] []).SendMessage (sampleChannel 4) (some ⟨false, [1, 2]⟩)
            true).ret = some true
      ∧ ((sampleClient brokenConn [] []).SendMessage (sampleChannel 4) (some ⟨false, [1, 2]⟩)
            true).trace.getLast?
          = some (Event.send ⟨false, [7, 1, 2]⟩ (brokenConn.Send ⟨false, [7, 1, 2]⟩)) :=
  ⟨rfl, rfl,
    SendMessage_ignores_send_result (sampleChannel 4) (sampleClient brokenConn [] []) brokenConn
      ⟨false, [1, 2]⟩ ⟨false, [7, 1, 2]⟩ true rfl (Or.inr ⟨rfl, rfl⟩)⟩

/-! ## Disconnecting -/

theorem SendMessage_net {σ δ : Type} (ch : Channel σ δ) (client : Client σ)
    (msg : Option IMessage) (h : Bool) :
    (client.SendMessage ch msg h).client.net = client.net
      ∧ (client.SendMessage ch msg h).client.disconnectCallback = client.disconnectCallback
      ∧ (client.SendMessage ch msg h).client.receivedQueue = client.receivedQueue
      ∧ (client.SendMessage ch msg h).client.listeners = client.listeners := by
  unfold Client.SendMessage
  by_cases hh : needsHeader msg = true
  · simp only [hh, if_true]
    split
    · exact ⟨rfl, rfl, rfl, rfl⟩
    · split <;> exact ⟨rfl, rfl, rfl, rfl⟩
  · simp only [hh]
    split
    · exact ⟨rfl, rfl, rfl, rfl⟩
    · split <;> exact ⟨rfl, rfl, rfl, rfl⟩

theorem Disconnect_trace {σ δ : Type} (ch : Channel σ δ) (client : Client σ)
    (conn : Connection) (m : IMessage) (hnet : client.net = some conn)
    (hcb : client.disconnectCallback = some ()) :
    (client.Disconnect ch (some m)).ret = some ()
      ∧ (client.Disconnect ch (some m)).trace
          = (client.SendMessage ch (some m) false).trace ++ [Event.cancel, Event.close] := by
  have hframe := SendMessage_net ch client (some m) false
  have hret : ∃ b, (client.SendMessage ch (some m) false).ret = some b := by
    by_cases hm : m.Connectionless = true
    · exact ⟨true, by rw [SendMessage_connectionless ch client conn m false hnet hm]⟩
    · have hm' : m.Connectionless = false := by simpa using hm
      cases hf : (ch.WriteHeader client.channel (some m) false).1 with
      | none => exact ⟨false, by rw [SendMessage_unframed ch client m false hm' hf]⟩
      | some f => exact ⟨true, by rw [SendMessage_framed ch client conn m f false hnet hm' hf]⟩
  obtain ⟨b, hb⟩ := hret
  have h1 : (client.SendMessage ch (some m) false).client.net = some conn := by
    rw [hframe.1, hnet]
  have h2 : (client.SendMessage ch (some m) false).client.disconnectCallback = some () := by
    rw [hframe.2.1, hcb]
  simp only [Client.Disconnect, hb, h1, h2, and_self]

/-- C3, as stated, fails: when the channel cannot frame the message (here a
5-byte payload on a channel that frames at most 4 bytes), `Disconnect(msg)`
calls `WriteHeader`, then cancels and closes, and no `Send` is made at all. -/
theorem Disconnect_sends_first_counterexample :
    ((sampleClient sampleConn [] []).Disconnect (sampleChannel 4)
        (some ⟨false, [1, 2, 3, 4, 5]⟩)).trace
      = [Event.writeHeader (some ⟨false, [1, 2, 3, 4, 5]⟩) false, Event.cancel, Event.close]
    ∧ ¬ ∃ x ok, Event.send x ok ∈
        ((sampleClient sampleConn [] []).Disconnect (sampleChannel 4)
          (some ⟨false, [1, 2, 3, 4, 5]⟩)).trace := by
  have h : ((sampleClient sampleConn [] []).Disconnect (sampleChannel 4)
        (some ⟨false, [1, 2, 3, 4, 5]⟩)).trace
      = [Event.writeHeader (some ⟨false, [1, 2, 3, 4, 5]⟩) false, Event.cancel, Event.close] := by
    decide
  refine ⟨h, ?_⟩
  rintro ⟨x, ok, hmem⟩
  rw [h] at hmem
  simp at hmem

/-- C3, amended: on a connected client, for every non-nil message `msg`,
`Disconnect(msg)` returns after making exactly the calls of
`SendMessage(msg, false)`, then the cancellation, then `Close()`; `Close()` is
called exactly once.  When `msg` is connectionless it is sent before the
cancellation and the close; when `WriteHeader` frames it, the framed message
is; when `WriteHeader` returns nil nothing is sent before the cancellation and
the close. -/
theorem Disconnect_order {σ δ : Type} (ch : Channel σ δ) (client : Client σ)
    (conn : Connection) (m : IMessage) (hnet : client.net = some conn)
    (hcb : client.disconnectCallback = some ()) :
    (client.Disconnect ch (some m)).ret = some ()
      ∧ (client.Disconnect ch (some m)).trace
          = (client.SendMessage ch (some m) false).trace ++ [Event.cancel, Event.close]
      ∧ (client.Disconnect ch (some m)).trace.count Event.close = 1
      ∧ (m.Connectionless = true →
          (client.Disconnect ch (some m)).trace
            = [Event.send m (conn.Send m), Event.cancel, Event.close])
      ∧ (m.Connectionless = false →
          ∀ f, (ch.WriteHeader client.channel (some m) false).1 = some f →
            (client.Disconnect ch (some m)).trace
              = [Event.writeHeader (some m) false, Event.send f (conn.Send f), Event.cancel,
                  Event.close])
      ∧ (m.Connectionless = false →
          (ch.WriteHeader client.channel (some m) false).1 = none →
          (client.Disconnect ch (some m)).trace
            = [Event.writeHeader (some m) false, Event.cancel, Event.close]) := by
  obtain ⟨hret, htr⟩ := Disconnect_trace ch client conn m hnet hcb
  have hc : m.Connectionless = true →
      (client.Disconnect ch (some m)).trace
        = [Event.send m (conn.Send m), Event.cancel, Event.close] := by
    intro hm
    rw [htr, SendMessage_connectionless ch client conn m false hnet hm]
    rfl
  have hf : m.Connectionless = false →
      ∀ f, (ch.WriteHeader client.channel (some m) false).1 = some f →
        (client.Disconnect ch (some m)).trace
          = [Event.writeHeader (some m) false, Event.send f (conn.Send f), Event.cancel,
              Event.close] := by
    intro hm f hf
    rw [htr, SendMessage_framed ch client conn m f false hnet hm hf]
    rfl
  have hn : m.Connectionless = false →
      (ch.WriteHeader client.channel (some m) false).1 = none →
      (client.Disconnect ch (some m)).trace
        = [Event.writeHeader (some m) false, Event.cancel, Event.close] := by
    intro hm hf
    rw [htr, SendMessage_unframed ch client m false hm hf]
    rfl
  refine ⟨hret, htr, ?_, hc, hf, hn⟩
  by_cases hm : m.Connectionless = true
  · rw [hc hm]; simp
  · have hm' : m.Connectionless = false := by simpa using hm
    cases hw : (ch.WriteHeader client.channel (some m) false).1 with
    | none => rw [hn hm' hw]; simp
    | some f => rw [hf hm' f hw]; simp

/-- A disconnect notice with the reason
`"bye"` goes through the sample channel and is sent before the close. -/
theorem Disconnect_order_witness :
    (sampleClient sampleConn [] []).net = some sampleConn
      ∧ (sampleClient sampleConn [] []).disconnectCallback = some ()
      ∧ ((sampleClient sampleConn [] []).Disconnect (sampleChannel 8)
          (some (Disconnect BitOrder.lsbFirst [98, 121, 101]).toIMessage)).trace
        = [Event.writeHeader (some ⟨false, [129, 88, 94, 25, 0]⟩) false,
            Event.send ⟨false, [7, 129, 88, 94, 25, 0]⟩ true, Event.cancel, Event.close] :=
  ⟨rfl, rfl,
    (Disconnect_order (sampleChannel 8) (sampleClient sampleConn [] []) sampleConn
      (Disconnect BitOrder.lsbFirst [98, 121, 101]).toIMessage rfl rfl).2.2.2.2.1 rfl
      ⟨false, [7, 129, 88, 94, 25, 0]⟩ (by decide)⟩

/-! ## Dispatching -/

theorem dispatchOrder_nil (p : Protocol) (ls : List IListener) : dispatchOrder p ls [] = [] := rfl

theorem dispatchOrder_cons_none (p : Protocol) (ls : List IListener)
    (q : List (Option IMessage)) : dispatchOrder p ls (none :: q) = dispatchOrder p ls q := rfl

theorem dispatchOrder_cons_some (p : Protocol) (ls : List IListener) (m : IMessage)
    (q : List (Option IMessage)) :
    dispatchOrder p ls (some m :: q)
      = ls.map (fun listen => Event.receive listen m (msgTypeOf p m)) ++ dispatchOrder p ls q := by
  simp [dispatchOrder, List.filterMap_cons, List.flatMap_cons]

theorem dispatchOrder_append (p : Protocol) (ls : List IListener)
    (q r : List (Option IMessage)) :
    dispatchOrder p ls (q ++ r) = dispatchOrder p ls q ++ dispatchOrder p ls r := by
  simp [dispatchOrder, List.filterMap_append, List.flatMap_append]

theorem msgTypeOn_false (p : Protocol) (m : IMessage) :
    msgTypeOn false p m = some (msgTypeOf p m) := by
  simp [msgTypeOn]

theorem dispatchFromOn_eq_list {σ : Type} (readPanics : Bool) (p : Protocol) (client : Client σ)
    (left i : Nat) (h : i + left ≤ client.receivedQueue.length) :
    client.dispatchFromOn readPanics p left i
      = dispatchList readPanics p client.listeners ((client.receivedQueue.drop i).take left) := by
  induction left generalizing i with
  | zero => simp [Client.dispatchFromOn, dispatchList]
  | succ left ih =>
    have hi : i < client.receivedQueue.length := by omega
    have hdrop : client.receivedQueue.drop i
        = client.receivedQueue[i] :: client.receivedQueue.drop (i + 1) :=
      List.drop_eq_getElem_cons hi
    have hget : client.receivedQueue.get? i = some client.receivedQueue[i] := by
      rw [List.get?_eq_getElem?, List.getElem?_eq_getElem hi]
    have hrest := ih (i + 1) (by omega)
    rw [hdrop, List.take_succ_cons]
    unfold Client.dispatchFromOn
    rw [hget]
    cases hx : client.receivedQueue[i] with
    | none => simp only [hrest, dispatchList]
    | some m =>
      simp only [dispatchList]
      cases ht : msgTypeOn readPanics p m with
      | none => rfl
      | some msgType => simp only [hrest]

theorem dispatchList_false (p : Protocol) (ls : List IListener) (q : List (Option IMessage)) :
    dispatchList false p ls q = (dispatchOrder p ls q, false) := by
  induction q with
  | nil => rfl
  | cons x q ih =>
    cases x with
    | none => simp only [dispatchList, ih, dispatchOrder_cons_none]
    | some m => simp only [dispatchList, msgTypeOn_false, ih, dispatchOrder_cons_some]

theorem dispatchList_panics (p : Protocol) (ls : List IListener)
    (before after : List (Option IMessage)) (m : IMessage)
    (hm : msgTypeOn true p m = none) :
    (dispatchList true p ls (before ++ some m :: after)).2 = true
      ∧ (dispatchList true p ls (before ++ some m :: after)).1 <+: dispatchOrder p ls before := by
  induction before with
  | nil =>
    simp only [List.nil_append, dispatchList, hm, dispatchOrder_nil]
    exact ⟨trivial, List.prefix_refl _⟩
  | cons x before ih =>
    cases x with
    | none =>
      simp only [List.cons_append, dispatchList, dispatchOrder_cons_none]
      exact ih
    | some y =>
      simp only [List.cons_append, dispatchList, dispatchOrder_cons_some]
      cases hy : msgTypeOn true p y with
      | none => exact ⟨rfl, List.nil_prefix⟩
      | some t =>
        have ht : t = msgTypeOf p y := by
          unfold msgTypeOn at hy
          split at hy
          · exact absurd hy (by simp)
          · exact (Option.some.inj hy).symm
        subst ht
        exact ⟨ih.1, (List.prefix_append_right_inj _).2 ih.2⟩

theorem dispatchFrom_eq {σ : Type} (p : Protocol) (client : Client σ) (left i : Nat)
    (h : i + left ≤ client.receivedQueue.length) :
    client.dispatchFrom p left i
      = (dispatchOrder p client.listeners ((client.receivedQueue.drop i).take left), false) := by
  rw [Client.dispatchFrom, dispatchFromOn_eq_list false p client left i h, dispatchList_false]

theorem processPass_eq {σ : Type} (p : Protocol) (client : Client σ) :
    (client.processPass p).ret = some ()
      ∧ (client.processPass p).trace = dispatchOrder p client.listeners client.receivedQueue
      ∧ (client.processPass p).client.receivedQueue = []
      ∧ (client.processPass p).client.listeners = client.listeners
      ∧ (client.processPass p).client.channel = client.channel := by
  by_cases h0 : client.receivedQueue.length = 0
  · have hnil : client.receivedQueue = [] := List.eq_nil_of_length_eq_zero h0
    simp [Client.processPass, Client.processPassOn, hnil, dispatchOrder_nil]
  · have hloop := dispatchFrom_eq p client client.receivedQueue.length 0 (by omega)
    simp only [List.drop_zero, List.take_length, Client.dispatchFrom] at hloop
    simp [Client.processPass, Client.processPassOn, h0, hloop]

theorem ofBitsLsb_lt (bs : List Bool) : ofBitsLsb bs < 2 ^ bs.length := by
  induction bs with
  | nil => simp [ofBitsLsb]
  | cons b bs ih =>
    have hb : b.toNat ≤ 1 := by cases b <;> simp [Bool.toNat]
    simp only [ofBitsLsb, List.length_cons, pow_succ]
    omega

theorem ofBits_lt (o : BitOrder) (bs : List Bool) : ofBits o bs < 2 ^ bs.length := by
  cases o
  · exact ofBitsLsb_lt bs
  · have h := ofBitsLsb_lt bs.reverse
    simpa [ofBits] using h

theorem unpackBits_length (o : BitOrder) (data : List Nat) :
    (unpackBits o data).length = 8 * data.length :=
  flatMap_ubits_length o data

theorem msgTypeOf_bound (p : Protocol) (m : IMessage) (hm : m.Connectionless = false)
    (hq : p.packetHeaderFlagQuery < 2 ^ 32) :
    msgTypeOf p m = (p.packetHeaderFlagQuery : Int) := by
  simp only [msgTypeOf, hm, Nat.mod_eq_of_lt hq]
  rfl

theorem msgTypeOf_read (p : Protocol) (m : IMessage) (v : Nat) (hm : m.Connectionless = true)
    (hv : Reader.ReadUint32Bits p.bitOrder (NewReader p.bitOrder m.Data) p.netmsgTypeBits
      = some v) :
    msgTypeOf p m = (v : Int) := by
  simp only [msgTypeOf, hm, hv, if_true]
  rfl

theorem ReadUint32Bits_enough (p : Protocol) (m : IMessage)
    (hlen : p.netmsgTypeBits ≤ 8 * m.Data.length) (h32 : p.netmsgTypeBits ≤ 32) :
    Reader.ReadUint32Bits p.bitOrder (NewReader p.bitOrder m.Data) p.netmsgTypeBits
      = some (ofBits p.bitOrder ((unpackBits p.bitOrder m.Data).take p.netmsgTypeBits)) := by
  have hl : p.netmsgTypeBits ≤ (unpackBits p.bitOrder m.Data).length := by
    rw [unpackBits_length]; exact hlen
  have hlt := ofBits_lt p.bitOrder ((unpackBits p.bitOrder m.Data).take p.netmsgTypeBits)
  have htl : ((unpackBits p.bitOrder m.Data).take p.netmsgTypeBits).length = p.netmsgTypeBits := by
    rw [List.length_take]; omega
  rw [htl] at hlt
  have hpow : 2 ^ p.netmsgTypeBits ≤ 2 ^ 32 := Nat.pow_le_pow_right (by decide) h32
  have hmod : ofBits p.bitOrder ((unpackBits p.bitOrder m.Data).take p.netmsgTypeBits) % 2 ^ 32
      = ofBits p.bitOrder ((unpackBits p.bitOrder m.Data).take p.netmsgTypeBits) :=
    Nat.mod_eq_of_lt (by omega)
  simp only [Reader.ReadUint32Bits, NewReader, hl, if_true, hmod]

theorem msgTypeOf_connectionless (p : Protocol) (m : IMessage) (hm : m.Connectionless = true)
    (hlen : p.netmsgTypeBits ≤ 8 * m.Data.length) (h32 : p.netmsgTypeBits ≤ 32) :
    msgTypeOf p m
      = (ofBits p.bitOrder ((unpackBits p.bitOrder m.Data).take p.netmsgTypeBits) : Int) :=
  msgTypeOf_read p m _ hm (ReadUint32Bits_enough p m hlen h32)

theorem ReadUint32Bits_short (p : Protocol) (m : IMessage)
    (hshort : 8 * m.Data.length < p.netmsgTypeBits) :
    Reader.ReadUint32Bits p.bitOrder (NewReader p.bitOrder m.Data) p.netmsgTypeBits = none := by
  have hl : ¬ p.netmsgTypeBits ≤ (unpackBits p.bitOrder m.Data).length := by
    rw [unpackBits_length]; omega
  simp only [Reader.ReadUint32Bits, NewReader, hl, if_false]

theorem msgTypeOf_short (p : Protocol) (m : IMessage) (hm : m.Connectionless = true)
    (hshort : 8 * m.Data.length < p.netmsgTypeBits) :
    msgTypeOf p m = ((p.shortRead % 2 ^ 32 : Nat) : Int) := by
  simp only [msgTypeOf, hm, ReadUint32Bits_short p m hshort, if_true]
  rfl

theorem msgTypeOn_short (p : Protocol) (m : IMessage) (hm : m.Connectionless = true)
    (hshort : 8 * m.Data.length < p.netmsgTypeBits) :
    msgTypeOn true p m = none := by
  simp [msgTypeOn, hm, ReadUint32Bits_short p m hshort]

theorem processPassOn_panics {σ : Type} (p : Protocol) (client : Client σ)
    (before after : List (Option IMessage)) (m : IMessage)
    (hq : client.receivedQueue = before ++ some m :: after)
    (hm : msgTypeOn true p m = none) :
    (client.processPassOn true p).ret = none
      ∧ (client.processPassOn true p).trace <+: dispatchOrder p client.listeners before
      ∧ (client.processPassOn true p).client.receivedQueue = client.receivedQueue := by
  have hlen : client.receivedQueue.length ≠ 0 := by
    rw [hq]; simp
  have hloop := dispatchFromOn_eq_list true p client client.receivedQueue.length 0 (by omega)
  simp only [List.drop_zero, List.take_length] at hloop
  obtain ⟨hflag, hpre⟩ := dispatchList_panics p client.listeners before after m hm
  rw [← hq, ← hloop] at hflag hpre
  simp only [Client.processPassOn, beq_iff_eq, hlen, if_false, hflag, if_true]
  exact ⟨trivial, hpre, trivial⟩

theorem msgTypeOf_taggedMessage (p : Protocol) (tag : Nat) (payload : List Nat)
    (htag : tag < 2 ^ p.netmsgTypeBits) (h32 : p.netmsgTypeBits ≤ 32) :
    msgTypeOf p (taggedMessage p tag payload) = (tag : Int) := by
  have hpow : 2 ^ p.netmsgTypeBits ≤ 2 ^ 32 := Nat.pow_le_pow_right (by decide) h32
  have htag32 : tag % 2 ^ 32 = tag := Nat.mod_eq_of_lt (Nat.lt_of_lt_of_le htag hpow)
  have hdata : (taggedMessage p tag payload).Data
      = packBits p.bitOrder
          (ubits p.bitOrder p.netmsgTypeBits tag ++ payload.flatMap (ubits p.bitOrder 8)) := by
    simp only [taggedMessage, Writer.Data, WriteString_bits, Writer.WriteUnsignedBitInt32,
      NewWriter, htag32, List.nil_append]
  have hbits : ((unpackBits p.bitOrder (taggedMessage p tag payload).Data).take p.netmsgTypeBits)
      = ubits p.bitOrder p.netmsgTypeBits tag := by
    rw [hdata, unpackBits_packBits, List.append_assoc, List.take_append_eq_append_take,
      ubits_length]
    simp [List.take_of_length_le, ubits_length]
  have hlen : p.netmsgTypeBits ≤ 8 * (taggedMessage p tag payload).Data.length := by
    rw [hdata, packBits, packN_length]
    simp only [List.length_append, ubits_length]
    omega
  rw [msgTypeOf_connectionless p _ rfl hlen h32, hbits, ofBits_ubits, Nat.mod_eq_of_lt htag]

/-- C4: when a pass of the dispatch task handles a queued message `m`,
wherever `m` stands in the queue, every listener gets `Receive(m,
messageType)` where, for a message that is not connectionless, `messageType`
is `packetHeaderFlagQuery` (a `uint32` constant), and for a connectionless
message it is the value `ReadUint32Bits(netmsgTypeBits)` reads from a fresh
reader over `Data()`: when the data holds at least `netmsgTypeBits` bits (at
most 32), the unsigned value of the first `netmsgTypeBits` bits of `Data()`.
A connectionless message made of the type tag 3 followed by a payload is
dispatched with `messageType == 3`. -/
theorem process_messageType {σ : Type} (p : Protocol) (client : Client σ)
    (before after : List (Option IMessage)) (m : IMessage)
    (hq : client.receivedQueue = before ++ some m :: after) :
    (m.Connectionless = false → p.packetHeaderFlagQuery < 2 ^ 32 →
        (client.processPass p).trace
          = dispatchOrder p client.listeners before
            ++ client.listeners.map
                (fun listen => Event.receive listen m (p.packetHeaderFlagQuery : Int))
            ++ dispatchOrder p client.listeners after)
      ∧ (m.Connectionless = true →
          ∀ v, Reader.ReadUint32Bits p.bitOrder (NewReader p.bitOrder m.Data) p.netmsgTypeBits
              = some v →
            (client.processPass p).trace
              = dispatchOrder p client.listeners before
                ++ client.listeners.map (fun listen => Event.receive listen m (v : Int))
                ++ dispatchOrder p client.listeners after)
      ∧ (m.Connectionless = true → p.netmsgTypeBits ≤ 8 * m.Data.length →
          p.netmsgTypeBits ≤ 32 →
          (client.processPass p).trace
            = dispatchOrder p client.listeners before
              ++ client.listeners.map (fun listen => Event.receive listen m
                  (ofBits p.bitOrder ((unpackBits p.bitOrder m.Data).take p.netmsgTypeBits) : Int))
              ++ dispatchOrder p client.listeners after)
      ∧ (∀ payload, m = taggedMessage p 3 payload → 3 < 2 ^ p.netmsgTypeBits →
          p.netmsgTypeBits ≤ 32 →
          (client.processPass p).trace
            = dispatchOrder p client.listeners before
              ++ client.listeners.map (fun listen => Event.receive listen m 3)
              ++ dispatchOrder p client.listeners after) := by
  have htr : (client.processPass p).trace
      = dispatchOrder p client.listeners before
        ++ client.listeners.map (fun listen => Event.receive listen m (msgTypeOf p m))
        ++ dispatchOrder p client.listeners after := by
    rw [(processPass_eq p client).2.1, hq, dispatchOrder_append, dispatchOrder_cons_some,
      List.append_assoc]
  refine ⟨?_, ?_, ?_, ?_⟩
  · intro hm hpq
    rw [htr, msgTypeOf_bound p m hm hpq]
  · intro hm v hv
    rw [htr, msgTypeOf_read p m v hm hv]
  · intro hm hlen h32
    rw [htr, msgTypeOf_connectionless p m hm hlen h32]
  · intro payload hmsg htag h32
    rw [htr, hmsg, msgTypeOf_taggedMessage p 3 payload htag h32]
    rfl

/-- Scenario B with a second message: the connectionless message with the
6-bit type tag 3 and the payload `"ping"` reaches both listeners with the
message type 3, and the connection-bound message queued behind it reaches
them with the query type. -/
theorem process_messageType_witness :
    (sampleClient sampleConn
        [some (taggedMessage (sampleProtocol BitOrder.lsbFirst) 3 [112, 105, 110, 103]),
          some ⟨false, [1]⟩] [0, 1]).receivedQueue
      = [] ++ some (taggedMessage (sampleProtocol BitOrder.lsbFirst) 3 [112, 105, 110, 103])
          :: [some ⟨false, [1]⟩]
    ∧ taggedMessage (sampleProtocol BitOrder.lsbFirst) 3 [112, 105, 110, 103]
      = ⟨true, [3, 92, 154, 219, 25]⟩
    ∧ ((sampleClient sampleConn
          [some (taggedMessage (sampleProtocol BitOrder.lsbFirst) 3 [112, 105, 110, 103]),
            some ⟨false, [1]⟩] [0, 1]).processPass (sampleProtocol BitOrder.lsbFirst)).trace
      = [Event.receive 0 ⟨true, [3, 92, 154, 219, 25]⟩ 3,
          Event.receive 1 ⟨true, [3, 92, 154, 219, 25]⟩ 3,
          Event.receive 0 ⟨false, [1]⟩ 4294967295, Event.receive 1 ⟨false, [1]⟩ 4294967295]
    ∧ ((sampleClient sampleConn
          [some (taggedMessage (sampleProtocol BitOrder.lsbFirst) 3 [112, 105, 110, 103]),
            some ⟨false, [1]⟩] [0, 1]).processPass (sampleProtocol BitOrder.lsbFirst)).trace
      = dispatchOrder (sampleProtocol BitOrder.lsbFirst) [0, 1]
          [some (taggedMessage (sampleProtocol BitOrder.lsbFirst) 3 [112, 105, 110, 103])]
        ++ [Event.receive 0 ⟨false, [1]⟩ 4294967295, Event.receive 1 ⟨false, [1]⟩ 4294967295]
        ++ dispatchOrder (sampleProtocol BitOrder.lsbFirst) [0, 1] [] :=
  ⟨rfl, by decide,
    ((process_messageType (sampleProtocol BitOrder.lsbFirst)
      (sampleClient sampleConn
        [some (taggedMessage (sampleProtocol BitOrder.lsbFirst) 3 [112, 105, 110, 103]),
          some ⟨false, [1]⟩] [0, 1])
      [] [some ⟨false, [1]⟩]
      (taggedMessage (sampleProtocol BitOrder.lsbFirst) 3 [112, 105, 110, 103]) rfl).2.2.2
      [112, 105, 110, 103] rfl (by decide) (by decide)).trans (by decide),
    (process_messageType (sampleProtocol BitOrder.lsbFirst)
      (sampleClient sampleConn
        [some (taggedMessage (sampleProtocol BitOrder.lsbFirst) 3 [112, 105, 110, 103]),
          some ⟨false, [1]⟩] [0, 1])
      [some (taggedMessage (sampleProtocol BitOrder.lsbFirst) 3 [112, 105, 110, 103])] []
      ⟨false, [1]⟩ rfl).1 rfl (by decide)⟩

/-- C7, as stated, fails, whatever the library does on a short read.  The
queue holds a connectionless message with no data, too short for the 6-bit
type field, and a well-formed one.  If the failed read returns a value `v`
next to its error, the message is not skipped: both listeners get it, with
the message type `v`, before the next message.  If the failed read panics, the
pass does not go on: it ends without any call, the next message is not
dispatched, and the queue is left as it was. -/
theorem process_decode_failure_counterexample :
    Reader.ReadUint32Bits BitOrder.lsbFirst (NewReader BitOrder.lsbFirst []) 6 = none
      ∧ (∀ v : Nat,
          ((sampleClient sampleConn [some ⟨true, []⟩, some ⟨true, [3, 156]⟩] [0, 1]).processPassOn
              false { sampleProtocol BitOrder.lsbFirst with shortRead := v }).trace
            = [Event.receive 0 ⟨true, []⟩ ((v % 2 ^ 32 : Nat) : Int),
                Event.receive 1 ⟨true, []⟩ ((v % 2 ^ 32 : Nat) : Int),
                Event.receive 0 ⟨true, [3, 156]⟩ 3, Event.receive 1 ⟨true, [3, 156]⟩ 3])
      ∧ (∀ v : Nat,
          ((sampleClient sampleConn [some ⟨true, []⟩, some ⟨true, [3, 156]⟩] [0, 1]).processPassOn
              true { sampleProtocol BitOrder.lsbFirst with shortRead := v }).trace = []
          ∧ ((sampleClient sampleConn [some ⟨true, []⟩, some ⟨true, [3, 156]⟩]
                [0, 1]).processPassOn
              true { sampleProtocol BitOrder.lsbFirst with shortRead := v }).ret = none
          ∧ ((sampleClient sampleConn [some ⟨true, []⟩, some ⟨true, [3, 156]⟩]
                [0, 1]).processPassOn
              true { sampleProtocol BitOrder.lsbFirst with shortRead := v }).client.receivedQueue
            = [some ⟨true, []⟩, some ⟨true, [3, 156]⟩]) := by
  refine ⟨by decide, ?_, ?_⟩
  · intro v
    rfl
  · intro v
    exact ⟨rfl, rfl, rfl⟩

/-- C7, amended: in a dispatch pass, a connectionless message whose `Data()`
is too short for the `netmsgTypeBits` type field makes the read fail, and the
pass does not skip it and go on.  When the failed read returns a value next to
its error, the error is dropped: `Receive` is called for the message on every
listener in registration order, with that value as the message type, and the
pass goes on with the entries queued after it, which are dispatched as usual,
and cuts the queue.  When the failed read panics, the pass ends there: the
calls made are calls for entries queued before the message, in dispatch order,
no `Receive` is made for the message or for an entry after it, and the queue
is not cut. -/
theorem process_decode_failure_dispatched {σ : Type} (p : Protocol) (client : Client σ)
    (before after : List (Option IMessage)) (m : IMessage)
    (hq : client.receivedQueue = before ++ some m :: after)
    (hm : m.Connectionless = true) (hshort : 8 * m.Data.length < p.netmsgTypeBits) :
    Reader.ReadUint32Bits p.bitOrder (NewReader p.bitOrder m.Data) p.netmsgTypeBits = none
      ∧ (client.processPassOn false p).ret = some ()
      ∧ (client.processPassOn false p).trace
          = dispatchOrder p client.listeners before
            ++ client.listeners.map
                (fun listen => Event.receive listen m ((p.shortRead % 2 ^ 32 : Nat) : Int))
            ++ dispatchOrder p client.listeners after
      ∧ (client.processPassOn false p).client.receivedQueue = []
      ∧ (client.processPassOn true p).ret = none
      ∧ (client.processPassOn true p).trace <+: dispatchOrder p client.listeners before
      ∧ (client.processPassOn true p).client.receivedQueue = client.receivedQueue := by
  obtain ⟨hret, htr, hqueue, _, _⟩ := processPass_eq p client
  obtain ⟨pret, ptr, pqueue⟩ :=
    processPassOn_panics p client before after m hq (msgTypeOn_short p m hm hshort)
  refine ⟨ReadUint32Bits_short p m hshort, hret, ?_, hqueue, pret, ptr, pqueue⟩
  have htr' : (client.processPassOn false p).trace
      = dispatchOrder p client.listeners client.receivedQueue := htr
  rw [htr', hq, dispatchOrder_append, dispatchOrder_cons_some, msgTypeOf_short p m hm hshort,
    List.append_assoc]

/-- A pass over an empty connectionless message between two well-formed
ones, for a library that returns 42 on a short read and for one that
panics. -/
theorem process_decode_failure_dispatched_witness :
    (sampleClient sampleConn [some ⟨false, [1]⟩, some ⟨true, []⟩, some ⟨true, [3, 156]⟩]
        [4, 5]).receivedQueue = [some ⟨false, [1]⟩] ++ some ⟨true, []⟩ :: [some ⟨true, [3, 156]⟩]
      ∧ (⟨true, []⟩ : IMessage).Connectionless = true
      ∧ 8 * (⟨true, []⟩ : IMessage).Data.length
          < (⟨6, 4294967295, BitOrder.msbFirst, 42⟩ : Protocol).netmsgTypeBits
      ∧ ((sampleClient sampleConn [some ⟨false, [1]⟩, some ⟨true, []⟩, some ⟨true, [3, 156]⟩]
            [4, 5]).processPassOn false ⟨6, 4294967295, BitOrder.msbFirst, 42⟩).trace
          = [Event.receive 4 ⟨false, [1]⟩ 4294967295, Event.receive 5 ⟨false, [1]⟩ 4294967295,
              Event.receive 4 ⟨true, []⟩ 42, Event.receive 5 ⟨true, []⟩ 42,
              Event.receive 4 ⟨true, [3, 156]⟩ 0, Event.receive 5 ⟨true, [3, 156]⟩ 0]
      ∧ ((sampleClient sampleConn [some ⟨false, [1]⟩, some ⟨true, []⟩, some ⟨true, [3, 156]⟩]
            [4, 5]).processPassOn true ⟨6, 4294967295, BitOrder.msbFirst, 42⟩).ret = none
      ∧ ((sampleClient sampleConn [some ⟨false, [1]⟩, some ⟨true, []⟩, some ⟨true, [3, 156]⟩]
            [4, 5]).processPassOn true ⟨6, 4294967295, BitOrder.msbFirst, 42⟩).trace
          = [Event.receive 4 ⟨false, [1]⟩ 4294967295, Event.receive 5 ⟨false, [1]⟩ 4294967295] :=
  ⟨rfl, rfl, by decide,
    (process_decode_failure_dispatched ⟨6, 4294967295, BitOrder.msbFirst, 42⟩
      (sampleClient sampleConn [some ⟨false, [1]⟩, some ⟨true, []⟩, some ⟨true, [3, 156]⟩] [4, 5])
      [some ⟨false, [1]⟩] [some ⟨true, [3, 156]⟩] ⟨true, []⟩ rfl rfl
      (by decide)).2.2.1.trans (by decide),
    (process_decode_failure_dispatched ⟨6, 4294967295, BitOrder.msbFirst, 42⟩
      (sampleClient sampleConn [some ⟨false, [1]⟩, some ⟨true, []⟩, some ⟨true, [3, 156]⟩] [4, 5])
      [some ⟨false, [1]⟩] [some ⟨true, [3, 156]⟩] ⟨true, []⟩ rfl rfl (by decide)).2.2.2.2.1,
    by decide⟩

/-! ## Listeners -/

/-- C9: `AddListener(t)` calls `t.Register(client)` while the registry is
still the old one, and leaves the registry as the old registry followed by
`t`, one entry longer, the received queue being untouched; after
`AddListener(a)` and `AddListener(b)` the registry ends in `a`, `b`, and a
dispatch pass serves `a` before `b`. -/
theorem AddListener_appends {σ : Type} (client : Client σ) (t a b : IListener) (p : Protocol)
    (m : IMessage) :
    (client.AddListener t).ret = some ()
      ∧ (client.AddListener t).trace = [Event.register t client.listeners]
      ∧ (client.AddListener t).client.listeners = client.listeners ++ [t]
      ∧ (client.AddListener t).client.listeners.take client.listeners.length = client.listeners
      ∧ (client.AddListener t).client.listeners.length = client.listeners.length + 1
      ∧ (client.AddListener t).client.receivedQueue = client.receivedQueue
      ∧ (client.AddListener t).client.channel = client.channel
      ∧ ((client.AddListener a).client.AddListener b).client.listeners
          = client.listeners ++ [a, b]
      ∧ ({ ((client.AddListener a).client.AddListener b).client with
            receivedQueue := [some m] }.processPass p).trace
          = client.listeners.map (fun listen => Event.receive listen m (msgTypeOf p m))
            ++ [Event.receive a m (msgTypeOf p m), Event.receive b m (msgTypeOf p m)] := by
  refine ⟨rfl, rfl, rfl, ?_, ?_, rfl, rfl, ?_, ?_⟩
  · simp [Client.AddListener]
  · simp [Client.AddListener]
  · simp [Client.AddListener]
  · rw [(processPass_eq p _).2.1]
    simp [Client.AddListener, dispatchOrder]

/-! ## Receiving -/

theorem receive_prefix {σ δ : Type} (ch : Channel σ δ) (client : Client σ) (packets : List δ) :
    client.receivedQueue <+: (client.receive ch packets).receivedQueue := by
  induction packets generalizing client with
  | nil => exact List.prefix_refl _
  | cons d ds ih =>
    have h := ih (client.receiveStep ch d)
    have h0 : client.receivedQueue <+: (client.receiveStep ch d).receivedQueue := by
      simp [Client.receiveStep]
    exact h0.trans h

/-- C10: one turn of the receive task hands the packet to `ProcessPacket` and
then puts the messages `GetMessages()` returns, in the order returned, at the
tail of the received queue: the queue afterwards is the queue before followed
by that list, so what was queued keeps its place, also over any number of
turns, and a turn is carried out on the state the earlier packets left; a
`NewClient` has an empty queue and an empty registry. -/
theorem receiveStep_appends {σ δ : Type} (ch : Channel σ δ) (client : Client σ) (packet : δ)
    (packets : List δ) (newChannel : σ) :
    (client.receiveStep ch packet).receivedQueue
        = client.receivedQueue
          ++ (ch.GetMessages
                (ch.WaitingOnFragments (ch.ProcessPacket client.channel packet)).2).1
      ∧ (client.receiveStep ch packet).channel
          = (ch.GetMessages (ch.WaitingOnFragments (ch.ProcessPacket client.channel packet)).2).2
      ∧ (client.receiveStep ch packet).receivedQueue.take client.receivedQueue.length
          = client.receivedQueue
      ∧ (client.receiveStep ch packet).listeners = client.listeners
      ∧ client.receive ch (packets ++ [packet])
          = (client.receive ch packets).receiveStep ch packet
      ∧ client.receivedQueue <+: (client.receive ch packets).receivedQueue
      ∧ (NewClient newChannel).receivedQueue = []
      ∧ (NewClient newChannel).listeners = [] := by
  refine ⟨rfl, rfl, ?_, rfl, ?_, receive_prefix ch client packets, rfl, rfl⟩
  · simp [Client.receiveStep]
  · simp [Client.receive, List.foldl_append]

end SourceNet
